import Mathlib

/-!
Verification development for the scrape-TO resumable crawl engine.

The definitions below are a shallow embedding of the Python sources:
  * `save_items_to_db`   from `src/database.py` (`Database.save_items_to_db`)
  * `load_progress`, `saveProgress` from `src/progress.py` (`ProgressTracker`)
  * `go_to_page`, `extract_page_results` from `src/browser_utils.py`
  * `run` (with `resolveStart`, `loopRun`, `finishRun`) from
    `src/scraper.py` (`TorontoCouncilScraper.scrape_agenda_items`)

External effects (the Playwright browser, the filesystem, sqlite write
failures) are abstracted into an `Env` of oracles; the durable state
(checkpoint file contents, database rows) is threaded explicitly.
-/

namespace ScrapeTO

/-- Text is modelled as a list of characters so that Python `str.strip` /
`str.split` semantics can be stated exactly. -/
abbrev Str := List Char

/-- One extracted listing entry, mirroring the dict built in
`extract_page_results` (`src/browser_utils.py:152-158`). -/
structure Item where
  item_number : Str
  link : Str
  title : Str
  committee : Str
  date : Str
deriving DecidableEq, Repr, Inhabited

/-- The non-key columns of one `agenda_items` row
(`src/database.py:15-21`). -/
structure DbRow where
  link : Str
  title : Str
  committee : Str
  date : Str
deriving DecidableEq, Repr, Inhabited

/-- The row an item is stored as. -/
def rowOf (it : Item) : DbRow :=
  ⟨it.link, it.title, it.committee, it.date⟩

/-- The `agenda_items` table: an association list from primary key
`item_number` to the remaining columns, in insertion order. -/
structure Db where
  rows : List (Str × DbRow)
deriving DecidableEq, Repr, Inhabited

/-- The key column of the table. -/
def Db.keys (db : Db) : List Str := db.rows.map Prod.fst

/-- SQL `SELECT ... WHERE item_number = k` on a keyed table: first match. -/
def lookupRow : List (Str × DbRow) → Str → Option DbRow
  | [], _ => none
  | (k, r) :: t, q => if k = q then some r else lookupRow t q

def Db.lookup (db : Db) (k : Str) : Option DbRow := lookupRow db.rows k

/-- The `INSERT` phase of `save_items_to_db` (`src/database.py:48-56`):
rows are inserted one at a time inside the open transaction; inserting a
key already present in the (transaction-local) table raises an
IntegrityError, which aborts the whole batch. -/
def insertNew : Db → List Item → Option Db
  | db, [] => some db
  | db, it :: rest =>
    if it.item_number ∈ db.keys then none
    else insertNew ⟨db.rows ++ [(it.item_number, rowOf it)]⟩ rest

/-- The `UPDATE` phase (`src/database.py:59-67`): overwrite every row whose
key matches the item's key with the item's fields. -/
def updateRow (db : Db) (it : Item) : Db :=
  ⟨db.rows.map fun kr =>
    if kr.1 = it.item_number then (kr.1, rowOf it) else kr⟩

/-- `Database.save_items_to_db` (`src/database.py:29-75`): an empty batch
returns immediately; otherwise the batch is partitioned against the keys
already in the table, new keys are inserted and existing keys updated, all
in one transaction.  `none` is the exception path: the transaction is
rolled back (the connection is closed without commit), so the caller's
durable table is unchanged, and the exception propagates. -/
def save_items_to_db (db : Db) (items : List Item) : Option Db :=
  if items = [] then some db
  else
    match insertNew db
        (items.filter fun it => decide (it.item_number ∉ db.keys)) with
    | none => none
    | some db1 =>
      some ((items.filter fun it => decide (it.item_number ∈ db.keys)).foldl
        updateRow db1)

/-- The field values left for key `k` after upserting the batch one
record at a time: the last record of the batch bearing the key wins
(`none` when no record bears it).  Used to state what a successful
`save_items_to_db` leaves behind. -/
def lastRowIn : List Item → Str → Option DbRow
  | [], _ => none
  | it :: rest, k =>
    match lastRowIn rest k with
    | some r => some r
    | none => if it.item_number = k then some (rowOf it) else none

/-! ### Extraction (`src/browser_utils.py:126-169`) -/

/-- Python `str.strip()` with whitespace predicate `ws`: drop a maximal
run of whitespace from the front, then from the back. -/
def pystrip (ws : Char → Bool) (s : Str) : Str :=
  ((s.dropWhile ws).reverse.dropWhile ws).reverse

/-- Python `s.split(chr)[0]`: the segment before the first separator. -/
def firstSegment (sep : Char) (s : Str) : Str :=
  s.takeWhile fun c => !(c == sep)

/-- The link-building conditional of `extract_page_results`
(`src/browser_utils.py:154`). -/
def mkLink (h : Str) : Str :=
  if h.head? = some '/' then "https://secure.toronto.ca".toList ++ h else h

/-- One `tr` of the rendered results table, as the selectors of
`extract_page_results` observe it: the count and text of the
`td a[target=_blank]` locator, its `href`, the texts of the cells used
for the other fields, and whether touching the row raised (the per-row
`except` continues to the next row). -/
structure RawRow where
  linkCount : Nat
  linkText : Str
  href : Option Str
  dateText : Str
  titleText : Str
  committeeText : Str
  rowError : Bool

/-- The per-row body of `extract_page_results`
(`src/browser_utils.py:134-162`): skip rows that raise, rows without a
link, rows whose stripped link text is empty, and rows with a falsy
`href`; otherwise build the item, the key being the first line of the
stripped link text, stripped again. -/
def processRow (ws : Char → Bool) (r : RawRow) : Option Item :=
  if r.rowError then none
  else if r.linkCount == 0 then none
  else
    let t := pystrip ws r.linkText
    if t = [] then none
    else
      let itemNo := pystrip ws (firstSegment '\n' t)
      match r.href with
      | none => none
      | some h =>
        if h = [] then none
        else
          some ⟨itemNo, mkLink h, pystrip ws r.titleText,
            pystrip ws r.committeeText, pystrip ws r.dateText⟩

/-- `BrowserUtils.extract_page_results` (`src/browser_utils.py:126-169`):
if listing the rows raises, the outer handler returns the items collected
so far (none); otherwise each row contributes at most one item. -/
def extract_page_results (ws : Char → Bool) (tableOk : Bool)
    (rows : List RawRow) : List Item :=
  if tableOk = false then [] else rows.filterMap (processRow ws)

/-! ### Navigation (`src/browser_utils.py:89-124`) -/

/-- The UI facts `go_to_page` consults for a target page `n`: how many
pagination controls `a.page-link[aria-label='Page n']` match, whether the
control becomes visible and the click settles in time (a timeout raises,
which the enclosing handler turns into `False`), and the `title`
attribute of the `aria-current` page item after the click. -/
structure UI where
  pageLinkCount : Nat → Nat
  linkVisible : Nat → Bool
  clickOk : Nat → Bool
  activeTitle : Nat → Option String

/-- `BrowserUtils.go_to_page` (`src/browser_utils.py:89-124`): return
`false` when no control for the page exists; any exception afterwards is
caught and also yields `false`; otherwise arrival is confirmed by
comparing the active page indicator's title with `"Page n"` (a missing or
falsy-empty title yields `false`). -/
def go_to_page (ui : UI) (n : Nat) : Bool :=
  if ui.pageLinkCount n == 0 then false
  else if ui.linkVisible n = false then false
  else if ui.clickOk n = false then false
  else
    match ui.activeTitle n with
    | none => false
    | some t => if t = "" then false else decide (t = "Page " ++ toString n)

/-! ### Checkpoint store (`src/progress.py`) -/

/-- The possible states of `scraping_progress.json` as seen by
`ProgressTracker.load_progress`. -/
inductive ProgressFile
  | missing
  | unreadable
  | malformedJson
  | jsonNonDict
  | jsonDict (lastCompletedPage : Option Nat)
deriving DecidableEq, Repr

/-- `ProgressTracker.load_progress` (`src/progress.py:23-32`): a missing
file, an unreadable file, malformed JSON, and JSON that is not an object
all yield `None` (every exception is caught and logged); a JSON object
yields `data.get("last_completed_page")`. -/
def load_progress : ProgressFile → Option Nat
  | .missing => none
  | .unreadable => none
  | .malformedJson => none
  | .jsonNonDict => none
  | .jsonDict v => v

/-! ### The crawl controller (`src/scraper.py`) -/

/-- Oracles for the external world of one run: browser setup success,
row-count configuration success, per-page navigation success, per-page
extraction results, and injected write failures for the record store and
the progress file. -/
structure Env where
  setupOk : Bool
  rowsOk : Bool
  navOk : Nat → Bool
  extract : Nat → List Item
  dbOk : Nat → Bool
  progOk : Nat → Bool

/-- The run configuration read from `scraper_config.json`
(`src/scraper.py:21-23,43-44`). -/
structure Config where
  start_page : Nat
  end_page : Nat
  pages_per_checkpoint : Nat
deriving DecidableEq, Repr

/-- Observable outcome of one run of `scrape_agenda_items`:
pages extracted in order, pages navigation was requested for, number of
browser initializations, the durable checkpoint and database at exit, the
in-memory batch at exit, and whether the run ended on the exception path. -/
structure RunResult where
  extracted : List Nat
  navs : List Nat
  sessionInits : Nat
  finalCheckpoint : Option Nat
  finalDb : Db
  finalBatch : List Item
  aborted : Bool
deriving Repr

/-- `ProgressTracker.save_progress` (`src/progress.py:11-21`): writes the
page to the progress file, but catches and only logs any write error, so
it never raises; on failure the durable checkpoint is unchanged. -/
def saveProgress (env : Env) (cp : Option Nat) (p : Nat) : Option Nat :=
  if env.progOk p then some p else cp

/-- `save_items_to_db` as called by the scraper with a possible external
write failure: an empty batch returns before touching sqlite
(`src/database.py:31-32`); otherwise an injected failure or a constraint
violation raises. -/
def saveAttempt (ok : Bool) (db : Db) (items : List Item) : Option Db :=
  if items = [] then some db
  else if ok = false then none
  else save_items_to_db db items

/-- Starting-page resolution (`src/scraper.py:47-52`): Python's
`if last_page and last_page >= start_page` treats both `None` and `0` as
falsy. -/
def resolveStart (lastPage : Option Nat) (startPage : Nat) : Nat :=
  match lastPage with
  | none => startPage
  | some p => if p ≠ 0 ∧ startPage ≤ p then p + 1 else startPage

/-- The checkpoint-failure path of the scraper
(`src/scraper.py:99-105,124-130` then `132-135`): the inner handler saves
progress at `current_page - (current_page % pages_per_checkpoint)` when
positive, re-raises, and the outer handler then saves
`current_page - 1` when `current_page` is truthy. -/
def abortSave (env : Env) (cfg : Config) (current : Nat) (cp : Option Nat) :
    Option Nat :=
  let lc := current - current % cfg.pages_per_checkpoint
  let cp1 := if 0 < lc then saveProgress env cp lc else cp
  if current ≠ 0 then saveProgress env cp1 (current - 1) else cp1

/-- The code after the `while` loop (`src/scraper.py:119-130`): flush any
remaining batch and save progress at the current page; on a flush failure
run the checkpoint-failure path.  (The code does not clear the batch
variable after the final save.) -/
def finishRun (env : Env) (cfg : Config) (current : Nat) (batch : List Item)
    (cp : Option Nat) (db : Db) (exs nvs : List Nat) : RunResult :=
  if batch = [] then ⟨exs, nvs, 1, cp, db, batch, false⟩
  else
    match saveAttempt (env.dbOk current) db batch with
    | some db2 =>
      ⟨exs, nvs, 1, saveProgress env cp current, db2, batch, false⟩
    | none =>
      ⟨exs, nvs, 1, abortSave env cfg current cp, db, batch, true⟩

/-- The checkpoint block of one loop iteration (`src/scraper.py:92-105`)
on the batch as extended by the current page: at a checkpoint boundary
flush the batch and save progress, clearing the batch only on success;
`none` is the exception path. -/
def ckptStep (env : Env) (cfg : Config) (current : Nat) (batch1 : List Item)
    (cp : Option Nat) (db : Db) : Option (List Item × Option Nat × Db) :=
  if current % cfg.pages_per_checkpoint == 0 then
    match saveAttempt (env.dbOk current) db batch1 with
    | some db2 => some ([], saveProgress env cp current, db2)
    | none => none
  else some (batch1, cp, db)

/-- The `while current_page <= end_page` loop (`src/scraper.py:86-117`),
fuelled by the number of remaining pages.  Each iteration extracts the
current page into the batch, runs `ckptStep` (aborting through
`abortSave` on its exception path), then advances to the next page if
navigation succeeds, and otherwise falls through to the post-loop final
save. -/
def loopRun (env : Env) (cfg : Config) :
    Nat → Nat → List Item → Option Nat → Db → List Nat → List Nat → RunResult
  | 0, current, batch, cp, db, exs, nvs =>
    finishRun env cfg current batch cp db exs nvs
  | fuel + 1, current, batch, cp, db, exs, nvs =>
    if cfg.end_page < current then finishRun env cfg current batch cp db exs nvs
    else
      match ckptStep env cfg current (batch ++ env.extract current) cp db with
      | none =>
        ⟨exs ++ [current], nvs, 1, abortSave env cfg current cp, db,
          batch ++ env.extract current, true⟩
      | some (batch2, cp2, db2) =>
        if current + 1 ≤ cfg.end_page then
          if env.navOk (current + 1) then
            loopRun env cfg fuel (current + 1) batch2 cp2 db2
              (exs ++ [current]) (nvs ++ [current + 1])
          else
            finishRun env cfg current batch2 cp2 db2 (exs ++ [current])
              (nvs ++ [current + 1])
        else
          finishRun env cfg current batch2 cp2 db2 (exs ++ [current]) nvs

/-- `TorontoCouncilScraper.scrape_agenda_items` (`src/scraper.py:34-141`)
over durable state `(cp0, db0)`: resolve the starting page, initialize the
browser once, run the setup sequence (failure hits the outer handler,
which saves `current_page - 1` when truthy), configure the page size
(failure is a plain early return), navigate to the starting page when it
is past page 1 (failure is a plain early return), then enter the loop. -/
def run (env : Env) (cfg : Config) (cp0 : Option Nat) (db0 : Db) : RunResult :=
  if env.setupOk = false then
    ⟨[], [], 1,
      (if resolveStart cp0 cfg.start_page ≠ 0 then
        saveProgress env cp0 (resolveStart cp0 cfg.start_page - 1) else cp0),
      db0, [], true⟩
  else if env.rowsOk = false then ⟨[], [], 1, cp0, db0, [], false⟩
  else if 1 < resolveStart cp0 cfg.start_page ∧
      env.navOk (resolveStart cp0 cfg.start_page) = false then
    ⟨[], [resolveStart cp0 cfg.start_page], 1, cp0, db0, [], false⟩
  else
    loopRun env cfg (cfg.end_page + 1 - resolveStart cp0 cfg.start_page)
      (resolveStart cp0 cfg.start_page) [] cp0 db0 []
      (if 1 < resolveStart cp0 cfg.start_page
        then [resolveStart cp0 cfg.start_page] else [])

/-! ### Concrete runs used as counterexamples and witnesses -/

/-- A key for page `n`, distinct across pages and never empty. -/
def pageKey (n : Nat) : Str := List.replicate (n + 1) 'a'

/-- A single record extracted from page `n`. -/
def pageItem (n : Nat) : Item := ⟨pageKey n, [], [], [], []⟩

/-- Fully healthy environment whose pages are all empty. -/
def envOk : Env :=
  ⟨true, true, fun _ => true, fun _ => [], fun _ => true, fun _ => true⟩

/-- One record per page; the record-store write at the page-20 checkpoint
boundary fails. -/
def envDbFail20 : Env :=
  ⟨true, true, fun _ => true, fun n => [pageItem n],
    fun n => !(n == 20), fun _ => true⟩

/-- Empty pages; the progress-file write at the page-2 checkpoint
boundary fails. -/
def envProgFail2 : Env :=
  ⟨true, true, fun _ => true, fun _ => [],
    fun _ => true, fun n => !(n == 2)⟩

/-- One record per page; the record-store write at the page-2 checkpoint
boundary fails. -/
def envDbFail2 : Env :=
  ⟨true, true, fun _ => true, fun n => [pageItem n],
    fun n => !(n == 2), fun _ => true⟩

/-- Whitespace in the sense of Python `str.strip` restricted to the two
characters exercised by the witnesses. -/
def wsSpace : Char → Bool := fun c => c == ' ' || c == '\n'

/-- A concrete rendered row whose link text carries padding and a second
line. -/
def sampleRow : RawRow :=
  ⟨1, "  A1\nmore".toList, some "/item".toList, "d".toList, "ti".toList,
    "co".toList, false⟩

/-- A rendered listing with no pagination control for any page. -/
def uiNoControl : UI :=
  ⟨fun _ => 0, fun _ => true, fun _ => true, fun _ => none⟩

/-! ### Generic lemmas about the crawl loop -/

lemma finishRun_proj (env : Env) (cfg : Config) (c : Nat) (b : List Item)
    (cp : Option Nat) (db : Db) (exs nvs : List Nat) :
    (finishRun env cfg c b cp db exs nvs).extracted = exs ∧
    (finishRun env cfg c b cp db exs nvs).navs = nvs ∧
    (finishRun env cfg c b cp db exs nvs).sessionInits = 1 := by
  unfold finishRun
  split
  · exact ⟨rfl, rfl, rfl⟩
  · split <;> exact ⟨rfl, rfl, rfl⟩

lemma loopRun_sessionInits (env : Env) (cfg : Config) :
    ∀ fuel current batch cp db exs nvs,
      (loopRun env cfg fuel current batch cp db exs nvs).sessionInits = 1 := by
  intro fuel
  induction fuel with
  | zero =>
    intro current batch cp db exs nvs
    exact (finishRun_proj env cfg current batch cp db exs nvs).2.2
  | succ n ih =>
    intro current batch cp db exs nvs
    rw [loopRun]
    split
    · exact (finishRun_proj env cfg current batch cp db exs nvs).2.2
    · rcases h : ckptStep env cfg current (batch ++ env.extract current) cp db
        with _ | ⟨b2, cp2, db2⟩
      · rfl
      · dsimp only
        split
        · split
          · exact ih (current + 1) b2 cp2 db2 (exs ++ [current])
              (nvs ++ [current + 1])
          · exact (finishRun_proj env cfg current b2 cp2 db2 (exs ++ [current])
              (nvs ++ [current + 1])).2.2
        · exact (finishRun_proj env cfg current b2 cp2 db2 (exs ++ [current])
            nvs).2.2

lemma loopRun_bound (env : Env) (cfg : Config) (b : Nat) :
    ∀ fuel current batch cp db exs nvs,
      b ≤ current → (∀ q ∈ exs, b ≤ q) → (∀ q ∈ nvs, b ≤ q) →
      (∀ q ∈ (loopRun env cfg fuel current batch cp db exs nvs).extracted,
        b ≤ q) ∧
      (∀ q ∈ (loopRun env cfg fuel current batch cp db exs nvs).navs,
        b ≤ q) := by
  intro fuel
  induction fuel with
  | zero =>
    intro current batch cp db exs nvs _ hexs hnvs
    have h := finishRun_proj env cfg current batch cp db exs nvs
    rw [loopRun, h.1, h.2.1]
    exact ⟨hexs, hnvs⟩
  | succ n ih =>
    intro current batch cp db exs nvs hc hexs hnvs
    have hexs1 : ∀ q ∈ exs ++ [current], b ≤ q := by
      intro q hq
      rcases List.mem_append.1 hq with h | h
      · exact hexs q h
      · rcases List.mem_singleton.1 h with rfl
        exact hc
    have hnvs1 : ∀ q ∈ nvs ++ [current + 1], b ≤ q := by
      intro q hq
      rcases List.mem_append.1 hq with h | h
      · exact hnvs q h
      · rcases List.mem_singleton.1 h with rfl
        omega
    rw [loopRun]
    split
    · have h := finishRun_proj env cfg current batch cp db exs nvs
      rw [h.1, h.2.1]
      exact ⟨hexs, hnvs⟩
    · rcases h : ckptStep env cfg current (batch ++ env.extract current) cp db
        with _ | ⟨b2, cp2, db2⟩
      · exact ⟨hexs1, hnvs⟩
      · dsimp only
        split
        · split
          · exact ih (current + 1) b2 cp2 db2 (exs ++ [current])
              (nvs ++ [current + 1]) (by omega) hexs1 hnvs1
          · have h2 := finishRun_proj env cfg current b2 cp2 db2
              (exs ++ [current]) (nvs ++ [current + 1])
            rw [h2.1, h2.2.1]
            exact ⟨hexs1, hnvs1⟩
        · have h2 := finishRun_proj env cfg current b2 cp2 db2
            (exs ++ [current]) nvs
          rw [h2.1, h2.2.1]
          exact ⟨hexs1, hnvs⟩

lemma loopRun_fatal (env : Env) (cfg : Config) (p : Nat)
    (hdb : env.dbOk p = false) (hb : p % cfg.pages_per_checkpoint = 0)
    (hx : env.extract p ≠ []) :
    ∀ fuel current batch cp db exs nvs,
      (∀ q ∈ exs, q < current) → p ∉ exs →
      p ∈ (loopRun env cfg fuel current batch cp db exs nvs).extracted →
      (loopRun env cfg fuel current batch cp db exs nvs).aborted = true ∧
      ∀ q ∈ (loopRun env cfg fuel current batch cp db exs nvs).extracted,
        q ≤ p := by
  intro fuel
  induction fuel with
  | zero =>
    intro current batch cp db exs nvs _ hnot hmem
    rw [loopRun, (finishRun_proj env cfg current batch cp db exs nvs).1]
      at hmem
    exact absurd hmem hnot
  | succ n ih =>
    intro current batch cp db exs nvs hlt hnot hmem
    by_cases hend : cfg.end_page < current
    · rw [loopRun, if_pos hend,
        (finishRun_proj env cfg current batch cp db exs nvs).1] at hmem
      exact absurd hmem hnot
    · rcases h : ckptStep env cfg current (batch ++ env.extract current) cp db
        with _ | ⟨b2, cp2, db2⟩
      · rw [loopRun, if_neg hend, h] at hmem ⊢
        dsimp only at hmem ⊢
        refine ⟨rfl, ?_⟩
        rcases List.mem_append.1 hmem with hmem' | hmem'
        · exact absurd hmem' hnot
        · rcases List.mem_singleton.1 hmem' with rfl
          intro q hq
          rcases List.mem_append.1 hq with h' | h'
          · exact le_of_lt (hlt q h')
          · rcases List.mem_singleton.1 h' with rfl
            exact le_refl _
      · have hne : current ≠ p := by
          rintro rfl
          simp only [ckptStep, hb, beq_self_eq_true, if_true, saveAttempt,
            List.append_eq_nil, hdb] at h
          simp [hx] at h
        have hlt1 : ∀ q ∈ exs ++ [current], q < current + 1 := by
          intro q hq
          rcases List.mem_append.1 hq with h' | h'
          · exact Nat.lt_succ_of_lt (hlt q h')
          · rcases List.mem_singleton.1 h' with rfl
            exact Nat.lt_succ_self _
        have hnot1 : p ∉ exs ++ [current] := by
          intro hq
          rcases List.mem_append.1 hq with h' | h'
          · exact hnot h'
          · rcases List.mem_singleton.1 h' with rfl
            exact hne rfl
        by_cases hnext : current + 1 ≤ cfg.end_page
        · by_cases hnav : env.navOk (current + 1) = true
          · rw [loopRun, if_neg hend, h] at hmem ⊢
            dsimp only at hmem ⊢
            rw [if_pos hnext, if_pos hnav] at hmem ⊢
            exact ih (current + 1) b2 cp2 db2 (exs ++ [current])
              (nvs ++ [current + 1]) hlt1 hnot1 hmem
          · rw [loopRun, if_neg hend, h] at hmem
            dsimp only at hmem
            rw [if_pos hnext, if_neg hnav,
              (finishRun_proj env cfg current b2 cp2 db2 (exs ++ [current])
                (nvs ++ [current + 1])).1] at hmem
            exact absurd hmem hnot1
        · rw [loopRun, if_neg hend, h] at hmem
          dsimp only at hmem
          rw [if_neg hnext,
            (finishRun_proj env cfg current b2 cp2 db2 (exs ++ [current])
              nvs).1] at hmem
          exact absurd hmem hnot1

/-! ### Claim theorems about the crawl controller -/

/-- Claim C3 (amended): the controller in `src/scraper.py` initializes
exactly one rendering session per run and never tears it down mid-run,
however many pages the range spans; there is no `sessionPageLimit`-style
forced restart. -/
theorem single_session_per_run (env : Env) (cfg : Config) (cp0 : Option Nat)
    (db0 : Db) : (run env cfg cp0 db0).sessionInits = 1 := by
  unfold run
  split
  · rfl
  · split
    · rfl
    · split
      · rfl
      · exact loopRun_sessionInits env cfg _ _ _ _ _ _ _

/-- Claim C3, counterexample to the claim as stated: a healthy run over
pages 1-200 has the rendering session serve all 200 pages, yet the
session is initialized exactly once — it is never torn down and
re-opened after `sessionPageLimit = 200` pages. -/
theorem no_session_restart_after_200_pages :
    (run envOk ⟨1, 200, 300⟩ none ⟨[]⟩).extracted.length = 200 ∧
    (run envOk ⟨1, 200, 300⟩ none ⟨[]⟩).sessionInits = 1 := by
  constructor
  · set_option maxRecDepth 8000 in decide
  · exact single_session_per_run envOk ⟨1, 200, 300⟩ none ⟨[]⟩

/-- Claim C2 (amended, record-store half): a Record Store write error at
a checkpoint boundary is fatal to the run — the run ends on the
exception path and no page beyond the failing one is extracted. -/
theorem record_write_error_fatal (env : Env) (cfg : Config) (cp0 : Option Nat)
    (db0 : Db) (p : Nat) (hdb : env.dbOk p = false)
    (hb : p % cfg.pages_per_checkpoint = 0) (hx : env.extract p ≠ [])
    (hmem : p ∈ (run env cfg cp0 db0).extracted) :
    (run env cfg cp0 db0).aborted = true ∧
    ∀ q ∈ (run env cfg cp0 db0).extracted, q ≤ p := by
  unfold run at hmem ⊢
  by_cases h1 : env.setupOk = false
  · rw [if_pos h1] at hmem
    simp at hmem
  · rw [if_neg h1] at hmem ⊢
    by_cases h2 : env.rowsOk = false
    · rw [if_pos h2] at hmem
      simp at hmem
    · rw [if_neg h2] at hmem ⊢
      by_cases h3 : 1 < resolveStart cp0 cfg.start_page ∧
          env.navOk (resolveStart cp0 cfg.start_page) = false
      · rw [if_pos h3] at hmem
        simp at hmem
      · rw [if_neg h3] at hmem ⊢
        exact loopRun_fatal env cfg p hdb hb hx _ _ _ _ _ _ _
          (by simp) (by simp) hmem

/-- Claim C2, witness for `record_write_error_fatal`: with the
record-store write failing at the page-2 boundary, the run over pages
1-5 aborts after extracting only pages 1 and 2. -/
theorem record_write_error_fatal_witness :
    (run envDbFail2 ⟨1, 5, 2⟩ none ⟨[]⟩).aborted = true ∧
    ∀ q ∈ (run envDbFail2 ⟨1, 5, 2⟩ none ⟨[]⟩).extracted, q ≤ 2 :=
  record_write_error_fatal envDbFail2 ⟨1, 5, 2⟩ none ⟨[]⟩ 2
    (by decide) (by decide) (by decide) (by decide)

/-- Claim C2, counterexample to the claim as stated: a Checkpoint Store
write error is not fatal.  With the progress-file write failing at the
page-2 checkpoint boundary, the run continues to page 3 and ends
normally, leaving the checkpoint unwritten. -/
theorem checkpoint_write_error_not_fatal :
    (run envProgFail2 ⟨1, 3, 2⟩ none ⟨[]⟩).extracted = [1, 2, 3] ∧
    (run envProgFail2 ⟨1, 3, 2⟩ none ⟨[]⟩).aborted = false ∧
    (run envProgFail2 ⟨1, 3, 2⟩ none ⟨[]⟩).finalCheckpoint = none := by
  decide

/-- Claim C4 (amended): when the stored checkpoint `p` is at least `1`
and at least `startPage`, the run starts at page `p + 1` and neither
extracts nor navigates to any page `≤ p`; when the checkpoint is absent,
zero (Python falsiness), or below `startPage`, the run starts at
`startPage`. -/
theorem resume_start_page (env : Env) (cfg : Config) (cp0 : Option Nat)
    (db0 : Db) :
    (∀ p, cp0 = some p → 1 ≤ p → cfg.start_page ≤ p →
      resolveStart cp0 cfg.start_page = p + 1 ∧
      (∀ q ∈ (run env cfg cp0 db0).extracted, p + 1 ≤ q) ∧
      (∀ q ∈ (run env cfg cp0 db0).navs, p + 1 ≤ q)) ∧
    ((cp0 = none ∨ cp0 = some 0 ∨ ∀ p, cp0 = some p → p < cfg.start_page) →
      resolveStart cp0 cfg.start_page = cfg.start_page) := by
  constructor
  · rintro p rfl h1 h2
    have hres : resolveStart (some p) cfg.start_page = p + 1 := by
      simp only [resolveStart]
      rw [if_pos ⟨by omega, h2⟩]
    refine ⟨hres, ?_⟩
    unfold run
    rw [hres]
    split
    · simp
    · split
      · simp
      · split
        · refine ⟨by simp, ?_⟩
          intro q hq
          simp at hq
          omega
        · rw [if_pos (by omega : 1 < p + 1)]
          exact loopRun_bound env cfg (p + 1) _ (p + 1) [] (some p) db0 []
            [p + 1] (le_refl _) (by simp) (by simp)
  · intro h
    rcases h with rfl | rfl | h
    · rfl
    · simp only [resolveStart]
      simp
    · rcases cp0 with _ | p
      · rfl
      · simp only [resolveStart]
        rw [if_neg]
        rintro ⟨_, hle⟩
        exact absurd hle (by have := h p rfl; omega)

/-- Claim C4, witness for `resume_start_page`: with checkpoint 5 and
range 3-6 the run starts at page 6 and touches no earlier page. -/
theorem resume_start_page_witness :
    resolveStart (some 5) 3 = 6 ∧
    (∀ q ∈ (run envOk ⟨3, 6, 20⟩ (some 5) ⟨[]⟩).extracted, 6 ≤ q) ∧
    (∀ q ∈ (run envOk ⟨3, 6, 20⟩ (some 5) ⟨[]⟩).navs, 6 ≤ q) :=
  (resume_start_page envOk ⟨3, 6, 20⟩ (some 5) ⟨[]⟩).1 5 rfl
    (by decide) (by decide)

/-- Claim C4, counterexample to the claim as stated: a stored checkpoint
of `0` with `startPage = 0` satisfies `p ≥ startPage`, yet Python's
truthiness test treats it as absent, so the run extracts page `0 ≤ p`
instead of starting at `p + 1 = 1`. -/
theorem resume_zero_checkpoint_reextracted :
    (run envOk ⟨0, 0, 20⟩ (some 0) ⟨[]⟩).extracted = [0] := by
  decide

/-- Claim C7 (amended): a healthy run with `startPage = endPage = k`
(starting fresh, i.e. the checkpoint resolves the start to `k`) extracts
exactly page `k` once and ends on the normal path; the durable checkpoint
ends at `k` provided page `k` yields at least one record or `k` is a
checkpoint boundary — a zero-record page off a boundary leaves the
checkpoint unwritten. -/
theorem single_page_run (env : Env) (cfg : Config) (cp0 : Option Nat)
    (db0 : Db) (k : Nat) (hcs : cfg.start_page = k) (hce : cfg.end_page = k)
    (hsetup : env.setupOk = true) (hrows : env.rowsOk = true)
    (hnav : env.navOk k = true) (hdbk : env.dbOk k = true)
    (hprog : env.progOk k = true)
    (hsave : save_items_to_db db0 (env.extract k) ≠ none)
    (hstart : resolveStart cp0 k = k) :
    (run env cfg cp0 db0).extracted = [k] ∧
    (run env cfg cp0 db0).aborted = false ∧
    ((env.extract k ≠ [] ∨ k % cfg.pages_per_checkpoint = 0) →
      (run env cfg cp0 db0).finalCheckpoint = some k) := by
  have hne : ¬(env.setupOk = false) := by simp [hsetup]
  have hnr : ¬(env.rowsOk = false) := by simp [hrows]
  have hnn : ¬(1 < k ∧ env.navOk k = false) := by simp [hnav]
  unfold run
  rw [hcs, hstart, hce, if_neg hne, if_neg hnr, if_neg hnn,
    show k + 1 - k = 1 by omega]
  generalize (if 1 < k then [k] else ([] : List Nat)) = nvs
  rw [show (1 : Nat) = 0 + 1 from rfl, loopRun, hce, if_neg (lt_irrefl k),
    List.nil_append]
  have hadv : ¬(k + 1 ≤ k) := by omega
  by_cases hx : env.extract k = []
  · rw [hx]
    by_cases hbd : k % cfg.pages_per_checkpoint = 0
    · rw [show ckptStep env cfg k [] cp0 db0 = some ([], some k, db0) by
        unfold ckptStep saveAttempt
        rw [if_pos (by simp [hbd]), if_pos rfl, saveProgress, if_pos hprog]]
      dsimp only
      rw [if_neg hadv]
      rw [show finishRun env cfg k [] (some k) db0 ([] ++ [k]) nvs =
          ⟨[] ++ [k], nvs, 1, some k, db0, [], false⟩ by
        unfold finishRun
        rw [if_pos rfl]]
      exact ⟨rfl, rfl, fun _ => rfl⟩
    · rw [show ckptStep env cfg k [] cp0 db0 = some ([], cp0, db0) by
        unfold ckptStep
        rw [if_neg (by simpa using hbd)]]
      dsimp only
      rw [if_neg hadv]
      rw [show finishRun env cfg k [] cp0 db0 ([] ++ [k]) nvs =
          ⟨[] ++ [k], nvs, 1, cp0, db0, [], false⟩ by
        unfold finishRun
        rw [if_pos rfl]]
      refine ⟨rfl, rfl, fun h => ?_⟩
      rcases h with h | h
      · exact absurd rfl h
      · exact absurd h hbd
  · obtain ⟨db1, hdb1⟩ : ∃ d, save_items_to_db db0 (env.extract k) = some d := by
      rcases hval : save_items_to_db db0 (env.extract k) with _ | d
      · exact absurd hval hsave
      · exact ⟨d, rfl⟩
    have hatt : saveAttempt (env.dbOk k) db0 (env.extract k) = some db1 := by
      unfold saveAttempt
      rw [if_neg hx, if_neg (by simp [hdbk]), hdb1]
    by_cases hbd : k % cfg.pages_per_checkpoint = 0
    · rw [show ckptStep env cfg k (env.extract k) cp0 db0 =
          some ([], some k, db1) by
        unfold ckptStep
        rw [if_pos (by simp [hbd]), hatt, saveProgress, if_pos hprog]]
      dsimp only
      rw [if_neg hadv]
      rw [show finishRun env cfg k [] (some k) db1 ([] ++ [k]) nvs =
          ⟨[] ++ [k], nvs, 1, some k, db1, [], false⟩ by
        unfold finishRun
        rw [if_pos rfl]]
      exact ⟨rfl, rfl, fun _ => rfl⟩
    · rw [show ckptStep env cfg k (env.extract k) cp0 db0 =
          some (env.extract k, cp0, db0) by
        unfold ckptStep
        rw [if_neg (by simpa using hbd)]]
      dsimp only
      rw [if_neg hadv]
      rw [show finishRun env cfg k (env.extract k) cp0 db0 ([] ++ [k]) nvs =
          ⟨[] ++ [k], nvs, 1, some k, db1, env.extract k, false⟩ by
        unfold finishRun
        rw [if_neg hx, hatt, saveProgress, if_pos hprog]]
      exact ⟨rfl, rfl, fun _ => rfl⟩

/-- Claim C7, witness for `single_page_run`: the run over the single page
2 with checkpoint interval 2 extracts exactly page 2, ends normally, and
checkpoints page 2. -/
theorem single_page_run_witness :
    (run envOk ⟨2, 2, 2⟩ none ⟨[]⟩).extracted = [2] ∧
    (run envOk ⟨2, 2, 2⟩ none ⟨[]⟩).aborted = false ∧
    ((envOk.extract 2 ≠ [] ∨ 2 % (2 : Nat) = 0) →
      (run envOk ⟨2, 2, 2⟩ none ⟨[]⟩).finalCheckpoint = some 2) :=
  single_page_run envOk ⟨2, 2, 2⟩ none ⟨[]⟩ 2 rfl rfl rfl rfl rfl rfl rfl
    (by decide) rfl

/-- Claim C7, counterexample to the claim as stated: a run with
`startPage = endPage = 1` whose page yields zero records (and whose page
is not a checkpoint boundary, interval 20) ends normally after extracting
page 1, but the durable checkpoint is never written — it is not `= 1`. -/
theorem single_page_empty_no_checkpoint :
    (run envOk ⟨1, 1, 20⟩ none ⟨[]⟩).extracted = [1] ∧
    (run envOk ⟨1, 1, 20⟩ none ⟨[]⟩).aborted = false ∧
    (run envOk ⟨1, 1, 20⟩ none ⟨[]⟩).finalCheckpoint = none := by
  decide

/-- Claim C1: evaluation of the code at the failing input.  With interval
20, range 1-20, one record per page, no prior checkpoint, and the
record-store flush at the page-20 boundary failing, the run aborts with
the batch uncleared (all 20 records still in memory, none durable) and
yet durably writes checkpoint 19: the inner handler computes
`last_checkpoint = 20 - 20 % 20 = 20` and saves it, and the outer handler
then saves 19 — both past the last durably flushed page (there is none). -/
theorem checkpoint_flush_failure_trace :
    (run envDbFail20 ⟨1, 20, 20⟩ none ⟨[]⟩).finalCheckpoint = some 19 ∧
    (run envDbFail20 ⟨1, 20, 20⟩ none ⟨[]⟩).finalDb.rows = [] ∧
    (run envDbFail20 ⟨1, 20, 20⟩ none ⟨[]⟩).finalBatch.length = 20 ∧
    (run envDbFail20 ⟨1, 20, 20⟩ none ⟨[]⟩).aborted = true := by
  decide

/-! ### Lemmas about the record store -/

lemma insertNew_sound : ∀ (its : List Item) (db db1 : Db),
    insertNew db its = some db1 →
    db1.rows = db.rows ++ its.map (fun it => (it.item_number, rowOf it)) ∧
    (its.map fun it => it.item_number).Nodup ∧
    ∀ it ∈ its, it.item_number ∉ db.keys := by
  intro its
  induction its with
  | nil =>
    intro db db1 h
    rw [insertNew] at h
    cases h
    simp
  | cons it rest ih =>
    intro db db1 h
    rw [insertNew] at h
    by_cases hm : it.item_number ∈ db.keys
    · rw [if_pos hm] at h
      cases h
    · rw [if_neg hm] at h
      obtain ⟨hrows, hnd, hall⟩ := ih _ _ h
      have hkeys2 : (Db.mk (db.rows ++ [(it.item_number, rowOf it)])).keys
          = db.keys ++ [it.item_number] := by
        simp [Db.keys]
      refine ⟨?_, ?_, ?_⟩
      · rw [hrows]
        simp
      · refine List.nodup_cons.2 ⟨?_, hnd⟩
        intro hmem
        obtain ⟨it2, hit2, hk2⟩ := List.mem_map.1 hmem
        have h2 := hall it2 hit2
        rw [hkeys2] at h2
        exact h2 (by simp [hk2])
      · intro it2 hit2
        rcases List.mem_cons.1 hit2 with rfl | h2
        · exact hm
        · have h3 := hall it2 h2
          rw [hkeys2] at h3
          intro hc
          exact h3 (List.mem_append.2 (Or.inl hc))

lemma insertNew_complete : ∀ (its : List Item) (db : Db),
    (its.map fun it => it.item_number).Nodup →
    (∀ it ∈ its, it.item_number ∉ db.keys) →
    insertNew db its =
      some ⟨db.rows ++ its.map (fun it => (it.item_number, rowOf it))⟩ := by
  intro its
  induction its with
  | nil =>
    intro db _ _
    rw [insertNew]
    simp
  | cons it rest ih =>
    intro db hnd hall
    rw [insertNew, if_neg (hall it (by simp))]
    rw [ih ⟨db.rows ++ [(it.item_number, rowOf it)]⟩ (List.nodup_cons.1 hnd).2]
    · simp
    · intro it2 hit2
      have h1 : it2.item_number ∉ db.keys := hall it2 (by simp [hit2])
      have h2 : it2.item_number ≠ it.item_number := by
        intro hc
        exact (List.nodup_cons.1 hnd).1 (List.mem_map.2 ⟨it2, hit2, hc⟩)
      intro hc
      rw [show (Db.mk (db.rows ++ [(it.item_number, rowOf it)])).keys
          = db.keys ++ [it.item_number] by simp [Db.keys]] at hc
      rcases List.mem_append.1 hc with hc | hc
      · exact h1 hc
      · exact h2 (List.mem_singleton.1 hc)

lemma updateRow_keys (db : Db) (it : Item) : (updateRow db it).keys = db.keys := by
  unfold updateRow Db.keys
  rw [List.map_map]
  apply List.map_congr_left
  intro kr _
  by_cases hk : kr.1 = it.item_number <;> simp [hk]

lemma foldl_update_keys : ∀ (its : List Item) (db : Db),
    (its.foldl updateRow db).keys = db.keys := by
  intro its
  induction its with
  | nil => intro db; rfl
  | cons it rest ih =>
    intro db
    rw [List.foldl_cons, ih, updateRow_keys]

lemma lookupRow_eq_none : ∀ (rows : List (Str × DbRow)) (k : Str),
    k ∉ rows.map Prod.fst → lookupRow rows k = none := by
  intro rows
  induction rows with
  | nil => intro k _; rfl
  | cons kr t ih =>
    intro k hk
    obtain ⟨k0, r0⟩ := kr
    rw [lookupRow, if_neg]
    · exact ih k fun hc => hk (by simp [hc])
    · intro hc
      exact hk (by simp [hc])

lemma lookupRow_isSome : ∀ (rows : List (Str × DbRow)) (k : Str),
    k ∈ rows.map Prod.fst → ∃ r, lookupRow rows k = some r := by
  intro rows
  induction rows with
  | nil => intro k hk; simp at hk
  | cons kr t ih =>
    intro k hk
    obtain ⟨k0, r0⟩ := kr
    by_cases h0 : k0 = k
    · exact ⟨r0, by rw [lookupRow, if_pos h0]⟩
    · obtain ⟨r, hr⟩ := ih k (by
        rcases List.mem_map.1 hk with ⟨kr2, hkr2, hfst⟩
        rcases List.mem_cons.1 hkr2 with rfl | h2
        · exact absurd hfst h0
        · exact List.mem_map.2 ⟨kr2, h2, hfst⟩)
      exact ⟨r, by rw [lookupRow, if_neg h0, hr]⟩

lemma lookupRow_append : ∀ (r1 r2 : List (Str × DbRow)) (k : Str),
    lookupRow (r1 ++ r2) k =
      match lookupRow r1 k with
      | some r => some r
      | none => lookupRow r2 k := by
  intro r1
  induction r1 with
  | nil => intro r2 k; rfl
  | cons kr t ih =>
    intro r2 k
    obtain ⟨k0, r0⟩ := kr
    by_cases h0 : k0 = k
    · rw [List.cons_append, lookupRow, if_pos h0, lookupRow, if_pos h0]
    · rw [List.cons_append, lookupRow, if_neg h0, lookupRow, if_neg h0, ih]

lemma lookupRow_mem_nodup : ∀ (rows : List (Str × DbRow)) (k : Str) (r : DbRow),
    (rows.map Prod.fst).Nodup → (k, r) ∈ rows → lookupRow rows k = some r := by
  intro rows
  induction rows with
  | nil => intro k r _ hm; simp at hm
  | cons kr t ih =>
    intro k r hnd hm
    obtain ⟨k0, r0⟩ := kr
    rw [List.map_cons] at hnd
    obtain ⟨hh, ht⟩ := List.nodup_cons.1 hnd
    rcases List.mem_cons.1 hm with heq | h2
    · cases heq
      rw [lookupRow, if_pos rfl]
    · have hne : k0 ≠ k := by
        intro hc
        subst hc
        exact hh (List.mem_map.2 ⟨(k0, r), h2, rfl⟩)
      rw [lookupRow, if_neg hne]
      exact ih k r ht h2

lemma lookup_updateRow (db : Db) (it : Item) (k : Str) :
    (updateRow db it).lookup k =
      if k = it.item_number then (db.lookup k).map (fun _ => rowOf it)
      else db.lookup k := by
  unfold updateRow Db.lookup
  obtain ⟨rows⟩ := db
  dsimp only
  induction rows with
  | nil =>
    by_cases h : k = it.item_number <;> simp [lookupRow, h]
  | cons kr t ih =>
    obtain ⟨k0, r0⟩ := kr
    by_cases hk : k0 = k
    · subst hk
      by_cases h0 : k0 = it.item_number
      · rw [List.map_cons, if_pos h0, lookupRow, if_pos rfl, if_pos h0,
          lookupRow, if_pos rfl]
        rfl
      · rw [List.map_cons, if_neg h0, lookupRow, if_pos rfl,
          if_neg (fun hc => h0 hc), lookupRow, if_pos rfl]
    · by_cases h0 : k0 = it.item_number
      · rw [List.map_cons, if_pos h0, lookupRow, if_neg hk, ih, lookupRow,
          if_neg hk]
      · rw [List.map_cons, if_neg h0, lookupRow, if_neg hk, ih, lookupRow,
          if_neg hk]

lemma lookup_foldl_update : ∀ (its : List Item) (db : Db) (k : Str),
    (its.foldl updateRow db).lookup k =
      match lastRowIn its k with
      | some r => (db.lookup k).map (fun _ => r)
      | none => db.lookup k := by
  intro its
  induction its with
  | nil => intro db k; rfl
  | cons it rest ih =>
    intro db k
    rw [List.foldl_cons, ih, lastRowIn]
    rcases hrest : lastRowIn rest k with _ | r
    · dsimp only
      rw [lookup_updateRow]
      by_cases hk : k = it.item_number
      · rw [if_pos hk, if_pos (hk.symm)]
      · rw [if_neg hk, if_neg (fun hc => hk hc.symm)]
    · dsimp only
      rw [lookup_updateRow]
      by_cases hk : k = it.item_number
      · rw [if_pos hk, Option.map_map]
        rfl
      · rw [if_neg hk]

lemma lastRowIn_eq_none : ∀ (its : List Item) (k : Str),
    (∀ it ∈ its, it.item_number ≠ k) → lastRowIn its k = none := by
  intro its
  induction its with
  | nil => intro k _; rfl
  | cons it rest ih =>
    intro k hall
    rw [lastRowIn, ih k fun it2 h2 => hall it2 (by simp [h2])]
    rw [if_neg (hall it (by simp))]

lemma lastRowIn_isSome : ∀ (its : List Item) (k : Str),
    (∃ it ∈ its, it.item_number = k) → ∃ r, lastRowIn its k = some r := by
  intro its
  induction its with
  | nil =>
    intro k hk
    simp at hk
  | cons it rest ih =>
    intro k hk
    rw [lastRowIn]
    rcases hrest : lastRowIn rest k with _ | r
    · obtain ⟨it2, hit2, hk2⟩ := hk
      rcases List.mem_cons.1 hit2 with rfl | h2
      · exact ⟨rowOf it2, by rw [if_pos hk2]⟩
      · obtain ⟨r, hr⟩ := ih k ⟨it2, h2, hk2⟩
        rw [hr] at hrest
        cases hrest
    · exact ⟨r, rfl⟩

lemma lastRowIn_filter (p : Item → Bool) : ∀ (its : List Item) (k : Str),
    (∀ it ∈ its, it.item_number = k → p it = true) →
    lastRowIn (its.filter p) k = lastRowIn its k := by
  intro its
  induction its with
  | nil => intro k _; rfl
  | cons it rest ih =>
    intro k hall
    have hrest := ih k fun it2 h2 => hall it2 (by simp [h2])
    rw [List.filter_cons]
    by_cases hp : p it = true
    · rw [if_pos hp, lastRowIn, hrest, lastRowIn]
    · rw [if_neg hp, hrest, lastRowIn]
      rcases lastRowIn rest k with _ | r
      · rw [if_neg fun hc => hp (hall it (by simp) hc)]
      · rfl

lemma lastRowIn_nodup : ∀ (its : List Item) (it : Item),
    (its.map fun i => i.item_number).Nodup → it ∈ its →
    lastRowIn its it.item_number = some (rowOf it) := by
  intro its
  induction its with
  | nil =>
    intro it _ hm
    simp at hm
  | cons a rest ih =>
    intro it hnd hm
    rw [List.map_cons] at hnd
    obtain ⟨hh, ht⟩ := List.nodup_cons.1 hnd
    rcases List.mem_cons.1 hm with rfl | h2
    · rw [lastRowIn, lastRowIn_eq_none rest it.item_number
        (fun it2 h2 hc => hh (List.mem_map.2 ⟨it2, h2, hc⟩)), if_pos rfl]
    · rw [lastRowIn, ih it ht h2]

lemma lookupRow_mapPairs (its : List Item) (it : Item)
    (hnd : (its.map fun i => i.item_number).Nodup) (hm : it ∈ its) :
    lookupRow (its.map fun i => (i.item_number, rowOf i)) it.item_number =
      some (rowOf it) := by
  induction its with
  | nil => simp at hm
  | cons a rest ih =>
    rw [List.map_cons] at hnd
    obtain ⟨hh, ht⟩ := List.nodup_cons.1 hnd
    rcases List.mem_cons.1 hm with rfl | h2
    · rw [List.map_cons, lookupRow, if_pos rfl]
    · have hne : a.item_number ≠ it.item_number := by
        intro hc
        exact hh (List.mem_map.2 ⟨it, h2, hc.symm⟩)
      rw [List.map_cons, lookupRow, if_neg hne]
      exact ih ht h2

lemma map_id_of_mem {α : Type} (f : α → α) : ∀ (l : List α),
    (∀ x ∈ l, f x = x) → l.map f = l := by
  intro l
  induction l with
  | nil => intro _; rfl
  | cons a t ih =>
    intro hall
    rw [List.map_cons, hall a (by simp), ih fun x hx => hall x (by simp [hx])]

lemma foldl_update_id : ∀ (its : List Item) (db : Db),
    (∀ it ∈ its, ∀ kr ∈ db.rows, kr.1 = it.item_number → kr.2 = rowOf it) →
    its.foldl updateRow db = db := by
  intro its
  induction its with
  | nil => intro db _; rfl
  | cons it rest ih =>
    intro db hall
    have hid : updateRow db it = db := by
      unfold updateRow
      have := map_id_of_mem
        (fun kr : Str × DbRow =>
          if kr.1 = it.item_number then (kr.1, rowOf it) else kr) db.rows ?_
      · rw [this]
      · intro kr hkr
        dsimp only
        by_cases hk : kr.1 = it.item_number
        · rw [if_pos hk, ← hall it (by simp) kr hkr hk]
        · rw [if_neg hk]
    rw [List.foldl_cons, hid]
    exact ih db fun it2 h2 => hall it2 (by simp [h2])

lemma save_spec (db : Db) (items : List Item) (db2 : Db)
    (hnd : db.keys.Nodup) (h : save_items_to_db db items = some db2) :
    db2.keys.Nodup ∧
    (∀ k, k ∈ db2.keys ↔ k ∈ db.keys ∨ ∃ it ∈ items, it.item_number = k) ∧
    (∀ k, (∀ it ∈ items, it.item_number ≠ k) → db2.lookup k = db.lookup k) ∧
    (∀ k, (∃ it ∈ items, it.item_number = k) →
      db2.lookup k = lastRowIn items k) := by
  by_cases hit : items = []
  · subst hit
    rw [save_items_to_db, if_pos rfl] at h
    cases h
    refine ⟨hnd, ?_, ?_, ?_⟩
    · intro k
      simp
    · intro k _
      rfl
    · intro k hk
      simp at hk
  · rw [save_items_to_db, if_neg hit] at h
    rcases hins : insertNew db (items.filter fun it =>
        decide (it.item_number ∉ db.keys)) with _ | db1
    · rw [hins] at h
      cases h
    · rw [hins] at h
      have hdb2 : db2 = (items.filter fun it =>
          decide (it.item_number ∈ db.keys)).foldl updateRow db1 := by
        cases h
        rfl
      obtain ⟨hrows1, hndnew, hallnew⟩ := insertNew_sound _ _ _ hins
      have hkeys1 : db1.keys = db.keys ++
          ((items.filter fun it => decide (it.item_number ∉ db.keys)).map
            fun it => it.item_number) := by
        show db1.rows.map Prod.fst = _
        rw [hrows1, List.map_append, List.map_map]
        rfl
      have hnd2 : db2.keys.Nodup := by
        rw [hdb2, foldl_update_keys, hkeys1]
        refine List.Nodup.append hnd hndnew ?_
        intro a ha hb
        obtain ⟨it2, hit2, hk2⟩ := List.mem_map.1 hb
        have h3 := (List.mem_filter.1 hit2).2
        rw [decide_eq_true_eq] at h3
        exact h3 (hk2 ▸ ha)
      refine ⟨hnd2, ?_, ?_, ?_⟩
      · intro k
        rw [hdb2, foldl_update_keys, hkeys1, List.mem_append]
        constructor
        · rintro (hk | hk)
          · exact Or.inl hk
          · obtain ⟨it2, hit2, hk2⟩ := List.mem_map.1 hk
            exact Or.inr ⟨it2, (List.mem_filter.1 hit2).1, hk2⟩
        · rintro (hk | ⟨it2, hit2, hk2⟩)
          · exact Or.inl hk
          · by_cases hkdb : k ∈ db.keys
            · exact Or.inl hkdb
            · refine Or.inr (List.mem_map.2
                ⟨it2, List.mem_filter.2 ⟨hit2, ?_⟩, hk2⟩)
              rw [decide_eq_true_eq, hk2]
              exact hkdb
      · intro k hall
        rw [hdb2, lookup_foldl_update, lastRowIn_eq_none _ k
          fun it2 h2 => hall it2 (List.mem_filter.1 h2).1]
        show Db.lookup db1 k = Db.lookup db k
        unfold Db.lookup
        rw [hrows1, lookupRow_append]
        by_cases hkdb : k ∈ db.keys
        · obtain ⟨r, hr⟩ := lookupRow_isSome db.rows k hkdb
          rw [hr]
        · rw [lookupRow_eq_none db.rows k hkdb]
          dsimp only
          rw [lookupRow_eq_none]
          intro hc
          rw [List.map_map] at hc
          obtain ⟨it2, hit2, hk2⟩ := List.mem_map.1 hc
          exact hall it2 (List.mem_filter.1 hit2).1 hk2
      · intro k hex
        rw [hdb2, lookup_foldl_update]
        by_cases hkdb : k ∈ db.keys
        · rw [lastRowIn_filter _ items k fun it2 _ hk2 => by
            rw [decide_eq_true_eq, hk2]; exact hkdb]
          obtain ⟨r, hr⟩ := lastRowIn_isSome items k hex
          rw [hr]
          dsimp only
          have hk1 : k ∈ db1.keys := by
            rw [hkeys1]
            exact List.mem_append.2 (Or.inl hkdb)
          obtain ⟨r0, hr0⟩ := lookupRow_isSome db1.rows k hk1
          show (Db.lookup db1 k).map _ = some r
          unfold Db.lookup
          rw [hr0]
          rfl
        · rw [lastRowIn_eq_none
            (items.filter fun it => decide (it.item_number ∈ db.keys)) k
            fun it2 h2 hc => by
              have h3 := (List.mem_filter.1 h2).2
              rw [decide_eq_true_eq] at h3
              exact hkdb (hc ▸ h3)]
          dsimp only
          obtain ⟨it0, hit0, hk0⟩ := hex
          subst hk0
          have hit0NK : it0 ∈ items.filter fun it =>
              decide (it.item_number ∉ db.keys) :=
            List.mem_filter.2 ⟨hit0, by rw [decide_eq_true_eq]; exact hkdb⟩
          rw [← lastRowIn_filter (fun it => decide (it.item_number ∉ db.keys))
            items it0.item_number fun it2 _ hk2 => by
              rw [decide_eq_true_eq, hk2]; exact hkdb]
          rw [lastRowIn_nodup _ it0 hndnew hit0NK]
          show Db.lookup db1 it0.item_number = some (rowOf it0)
          unfold Db.lookup
          rw [hrows1, lookupRow_append,
            lookupRow_eq_none db.rows _ hkdb]
          dsimp only
          exact lookupRow_mapPairs _ it0 hndnew hit0NK

/-- Claim C6: `save_items_to_db` is all-or-nothing at the transaction
level (`none` rolls the table back unchanged); after a successful upsert
the key column is still duplicate-free, the key set is the old keys plus
the batch keys (each present exactly once), keys outside the batch keep
their rows, and every batch key holds the fields of the last batch record
bearing it (insert if unseen, full overwrite if seen). -/
theorem upsert_all_or_nothing (db : Db) (items : List Item) (db2 : Db)
    (hnd : db.keys.Nodup) (h : save_items_to_db db items = some db2) :
    db2.keys.Nodup ∧
    (∀ k, k ∈ db2.keys ↔ k ∈ db.keys ∨ ∃ it ∈ items, it.item_number = k) ∧
    (∀ k, (∀ it ∈ items, it.item_number ≠ k) → db2.lookup k = db.lookup k) ∧
    (∀ k, (∃ it ∈ items, it.item_number = k) →
      db2.lookup k = lastRowIn items k) :=
  save_spec db items db2 hnd h

/-- Claim C6, witness for `upsert_all_or_nothing` on a two-record batch
against an empty table. -/
theorem upsert_all_or_nothing_witness :
    (Db.mk [(pageKey 1, rowOf (pageItem 1)),
      (pageKey 2, rowOf (pageItem 2))]).keys.Nodup ∧
    (∀ k, k ∈ (Db.mk [(pageKey 1, rowOf (pageItem 1)),
        (pageKey 2, rowOf (pageItem 2))]).keys ↔
      k ∈ (Db.mk []).keys ∨
        ∃ it ∈ [pageItem 1, pageItem 2], it.item_number = k) ∧
    (∀ k, (∀ it ∈ [pageItem 1, pageItem 2], it.item_number ≠ k) →
      (Db.mk [(pageKey 1, rowOf (pageItem 1)),
        (pageKey 2, rowOf (pageItem 2))]).lookup k = (Db.mk []).lookup k) ∧
    (∀ k, (∃ it ∈ [pageItem 1, pageItem 2], it.item_number = k) →
      (Db.mk [(pageKey 1, rowOf (pageItem 1)),
        (pageKey 2, rowOf (pageItem 2))]).lookup k =
        lastRowIn [pageItem 1, pageItem 2] k) :=
  upsert_all_or_nothing ⟨[]⟩ [pageItem 1, pageItem 2]
    ⟨[(pageKey 1, rowOf (pageItem 1)), (pageKey 2, rowOf (pageItem 2))]⟩
    (by decide) (by decide)

/-- Claim C5: for a batch with pairwise-distinct keys (on a table whose
key column is duplicate-free), upserting the batch succeeds, and
upserting it a second time succeeds and leaves the same key set and the
same looked-up fields for every key as the single application. -/
theorem upsert_idempotent (db : Db) (items : List Item)
    (hdb : db.keys.Nodup)
    (hitems : (items.map fun it => it.item_number).Nodup) :
    ∃ db1 db2, save_items_to_db db items = some db1 ∧
      save_items_to_db db1 items = some db2 ∧
      db2.keys = db1.keys ∧ ∀ k, db2.lookup k = db1.lookup k := by
  by_cases hit : items = []
  · subst hit
    exact ⟨db, db, by rw [save_items_to_db, if_pos rfl],
      by rw [save_items_to_db, if_pos rfl], rfl, fun k => rfl⟩
  · have hnknd : (((items.filter fun it =>
        decide (it.item_number ∉ db.keys)).map
          fun it => it.item_number)).Nodup :=
      List.Nodup.sublist (List.Sublist.map _ (List.filter_sublist _)) hitems
    have hnkall : ∀ it ∈ (items.filter fun it =>
        decide (it.item_number ∉ db.keys)), it.item_number ∉ db.keys := by
      intro it h2
      have h3 := (List.mem_filter.1 h2).2
      rwa [decide_eq_true_eq] at h3
    have hins := insertNew_complete _ db hnknd hnkall
    have h1 : ∃ d, save_items_to_db db items = some d := by
      rw [save_items_to_db, if_neg hit, hins]
      exact ⟨_, rfl⟩
    obtain ⟨db1, h1'⟩ := h1
    obtain ⟨A, B, C, D⟩ := save_spec db items db1 hdb h1'
    have hallmem : ∀ it ∈ items, it.item_number ∈ db1.keys := fun it h2 =>
      (B it.item_number).2 (Or.inr ⟨it, h2, rfl⟩)
    have hfilnil : (items.filter fun it =>
        decide (it.item_number ∉ db1.keys)) = [] := by
      rw [List.filter_eq_nil_iff]
      intro it h2
      simp [hallmem it h2]
    have hfilself : (items.filter fun it =>
        decide (it.item_number ∈ db1.keys)) = items := by
      rw [List.filter_eq_self]
      intro it h2
      rw [decide_eq_true_eq]
      exact hallmem it h2
    have hid : items.foldl updateRow db1 = db1 := by
      apply foldl_update_id
      intro it h2 kr hkr hk
      have hlk : db1.lookup it.item_number = some (rowOf it) := by
        rw [D it.item_number ⟨it, h2, rfl⟩,
          lastRowIn_nodup items it hitems h2]
      have hmemrow : (it.item_number, kr.2) ∈ db1.rows := by
        rw [← hk]
        exact hkr
      have hlk2 := lookupRow_mem_nodup db1.rows it.item_number kr.2 A hmemrow
      rw [Db.lookup, hlk2] at hlk
      exact Option.some.inj hlk
    have h2' : save_items_to_db db1 items = some db1 := by
      rw [save_items_to_db, if_neg hit, hfilnil, insertNew]
      dsimp only
      rw [hfilself, hid]
    exact ⟨db1, db1, h1', h2', rfl, fun k => rfl⟩

/-- Claim C5, witness for `upsert_idempotent` on a concrete two-record
batch with distinct keys against an empty table. -/
theorem upsert_idempotent_witness :
    ∃ db1 db2, save_items_to_db ⟨[]⟩ [pageItem 1, pageItem 2] = some db1 ∧
      save_items_to_db db1 [pageItem 1, pageItem 2] = some db2 ∧
      db2.keys = db1.keys ∧ ∀ k, db2.lookup k = db1.lookup k :=
  upsert_idempotent ⟨[]⟩ [pageItem 1, pageItem 2] (by decide) (by decide)

/-! ### Lemmas about extraction, navigation and the checkpoint file -/

lemma dropWhile_head_false (ws : Char → Bool) : ∀ (l : Str) (c : Char)
    (t : Str), List.dropWhile ws l = c :: t → ws c = false := by
  intro l
  induction l with
  | nil =>
    intro c t h
    simp [List.dropWhile] at h
  | cons a l ih =>
    intro c t h
    rw [List.dropWhile_cons] at h
    by_cases ha : ws a = true
    · rw [if_pos ha] at h
      exact ih c t h
    · rw [if_neg ha] at h
      cases h
      exact Bool.eq_false_iff.2 ha

lemma pystrip_head_false (ws : Char → Bool) (s : Str) (c : Char) (t : Str)
    (h : pystrip ws s = c :: t) : ws c = false := by
  unfold pystrip at h
  have h2 : List.dropWhile ws (s.dropWhile ws).reverse = (c :: t).reverse := by
    rw [← h, List.reverse_reverse]
  have hsplit := List.takeWhile_append_dropWhile (p := ws)
    (l := (s.dropWhile ws).reverse)
  rw [h2] at hsplit
  have h4 := congrArg List.reverse hsplit
  rw [List.reverse_append, List.reverse_reverse, List.reverse_reverse] at h4
  exact dropWhile_head_false ws s c
    (t ++ (List.takeWhile ws (s.dropWhile ws).reverse).reverse) h4.symm

lemma dropWhile_append_singleton (ws : Char → Bool) (c : Char)
    (hc : ws c = false) : ∀ l : Str, List.dropWhile ws (l ++ [c]) ≠ [] := by
  intro l
  induction l with
  | nil =>
    rw [List.nil_append, List.dropWhile_cons, if_neg (by simp [hc])]
    simp
  | cons a t ih =>
    rw [List.cons_append, List.dropWhile_cons]
    by_cases ha : ws a = true
    · rw [if_pos ha]
      exact ih
    · rw [if_neg ha]
      simp

lemma pystrip_cons_ne_nil (ws : Char → Bool) (c : Char) (hc : ws c = false)
    (l : Str) : pystrip ws (c :: l) ≠ [] := by
  unfold pystrip
  rw [List.dropWhile_cons, if_neg (by simp [hc]), List.reverse_cons]
  intro hnil
  rw [List.reverse_eq_nil_iff] at hnil
  exact dropWhile_append_singleton ws c hc l.reverse hnil

/-- Claim C8: every record produced by `extract_page_results` has a
non-empty key — rows with a missing link, empty or whitespace-only link
text, a falsy href, or a row-level error are dropped, and the surviving
key (first line of the stripped link text, stripped again) is never
empty, because stripping a non-empty string leaves a non-whitespace head
that the newline split preserves. -/
theorem extracted_keys_nonempty (ws : Char → Bool) (hnl : ws '\n' = true)
    (tableOk : Bool) (rows : List RawRow) :
    ∀ it ∈ extract_page_results ws tableOk rows, it.item_number ≠ [] := by
  intro it hit
  unfold extract_page_results at hit
  by_cases ht : tableOk = false
  · rw [if_pos ht] at hit
    simp at hit
  · rw [if_neg ht] at hit
    obtain ⟨r, _, hpr⟩ := List.mem_filterMap.1 hit
    unfold processRow at hpr
    dsimp only at hpr
    by_cases h1 : r.rowError = true
    · rw [if_pos h1] at hpr
      cases hpr
    · rw [if_neg h1] at hpr
      by_cases h2 : (r.linkCount == 0) = true
      · rw [if_pos h2] at hpr
        cases hpr
      · rw [if_neg h2] at hpr
        by_cases h3 : pystrip ws r.linkText = []
        · rw [if_pos h3] at hpr
          cases hpr
        · rw [if_neg h3] at hpr
          rcases hh : r.href with _ | h5
          · rw [hh] at hpr
            cases hpr
          · rw [hh] at hpr
            dsimp only at hpr
            by_cases h4 : h5 = []
            · rw [if_pos h4] at hpr
              cases hpr
            · rw [if_neg h4] at hpr
              obtain ⟨c, t, hct⟩ : ∃ c t, pystrip ws r.linkText = c :: t := by
                rcases hcase : pystrip ws r.linkText with _ | ⟨c, t⟩
                · exact absurd hcase h3
                · exact ⟨c, t, rfl⟩
              have hc : ws c = false := pystrip_head_false ws _ c t hct
              have hcn : (c == '\n') = false := by
                rcases hcc : (c == '\n') with _ | _
                · rfl
                · rw [beq_iff_eq] at hcc
                  rw [hcc, hnl] at hc
                  cases hc
              have hfs : firstSegment '\n' (pystrip ws r.linkText) =
                  c :: (t.takeWhile fun x => !(x == '\n')) := by
                rw [hct]
                unfold firstSegment
                rw [List.takeWhile_cons, if_pos (by simp [hcn])]
              rw [← Option.some.inj hpr]
              show pystrip ws (firstSegment '\n' (pystrip ws r.linkText)) ≠ []
              rw [hfs]
              exact pystrip_cons_ne_nil ws c hc _

/-- Claim C8, witness for `extracted_keys_nonempty`: a concrete row with
padded, two-line link text yields exactly one record, and every yielded
record has a non-empty key. -/
theorem extracted_keys_nonempty_witness :
    (extract_page_results wsSpace true [sampleRow]).length = 1 ∧
    ∀ it ∈ extract_page_results wsSpace true [sampleRow],
      it.item_number ≠ [] :=
  ⟨by decide, extracted_keys_nonempty wsSpace (by decide) true [sampleRow]⟩

/-- Claim C9: when the pagination control for page `n` does not exist
(the locator count is zero), `go_to_page` returns `false`; it is a total
boolean function, every exception path in the source being caught and
converted to `false`. -/
theorem go_to_page_missing_control (ui : UI) (n : Nat)
    (h : ui.pageLinkCount n = 0) : go_to_page ui n = false := by
  unfold go_to_page
  rw [h]
  rfl

/-- Claim C9, witness for `go_to_page_missing_control` at a concrete
listing with no controls. -/
theorem go_to_page_missing_control_witness :
    go_to_page uiNoControl 7 = false :=
  go_to_page_missing_control uiNoControl 7 rfl

/-- Claim C10: a missing, unreadable, or malformed-JSON progress file
makes `load_progress` return `none` rather than raise, so the run's
starting page resolves to `startPage`. -/
theorem load_progress_corrupt_none (f : ProgressFile)
    (h : f = ProgressFile.missing ∨ f = ProgressFile.unreadable ∨
      f = ProgressFile.malformedJson) :
    load_progress f = none ∧
    ∀ sp, resolveStart (load_progress f) sp = sp := by
  rcases h with rfl | rfl | rfl <;> exact ⟨rfl, fun sp => rfl⟩

/-- Claim C10, witness for `load_progress_corrupt_none` at the
malformed-JSON file state. -/
theorem load_progress_corrupt_none_witness :
    load_progress ProgressFile.malformedJson = none ∧
    ∀ sp, resolveStart (load_progress ProgressFile.malformedJson) sp = sp :=
  load_progress_corrupt_none ProgressFile.malformedJson (Or.inr (Or.inr rfl))

end ScrapeTO
